import Mathlib

/-
Verification development for the resume_made_easy backend (backend/server.js,
shipped as src/backend/test-gemini.js).  Strings are modelled as `List Char`
(the JS strings of the handlers), and the JavaScript `String.prototype.replace`
with a global pattern is modelled by `jsReplace` below, including the `$`
expansion that JS performs inside replacement strings.  All regular expressions
in the source are built from a regex-escaped field id (`escKey`), so every
pattern is a literal string match except the two named-definition patterns,
whose lazy `[^}]*?(\})` body is the shortest run of non-brace characters
followed by a closing brace; `matchBody` models exactly that.
-/

/- Brace characters, written via their code points. -/
def lb : Char := Char.ofNat 123

def rb : Char := Char.ofNat 125

def btk : Char := Char.ofNat 96

def apos : Char := Char.ofNat 39

/- All suffixes of a string, longest first (used to state that a pattern
matches nowhere in a string). -/
def tailsOf : List Char → List (List Char)
  | [] => [[]]
  | c :: rest => (c :: rest) :: tailsOf rest

/- Last `n` characters of a list, JS `slice(-n)`. -/
def lastN (n : Nat) (l : List Char) : List Char := l.drop (l.length - n)

/- Expansion of a JS replacement string at one match, per ECMAScript
GetSubstitution: `$$`, `$&`, the before/after context forms, and `$n`/`$nn`
group references (a reference to a group the pattern does not have stays
literal). -/
def expandReplGo (before matched after : List Char) (groups : List (List Char)) :
    Nat → List Char → List Char
  | _, [] => []
  | 0, t => t
  | fuel + 1, c :: rest =>
    if c = '$' then
      match rest with
      | [] => ['$']
      | d :: rest2 =>
        if d = '$' then '$' :: expandReplGo before matched after groups fuel rest2
        else if d = '&' then matched ++ expandReplGo before matched after groups fuel rest2
        else if d = btk then before ++ expandReplGo before matched after groups fuel rest2
        else if d = apos then after ++ expandReplGo before matched after groups fuel rest2
        else if d.isDigit then
          match rest2 with
          | e :: rest3 =>
            if e.isDigit then
              if 1 ≤ 10 * (d.toNat - 48) + (e.toNat - 48) ∧
                  10 * (d.toNat - 48) + (e.toNat - 48) ≤ groups.length then
                groups.getD (10 * (d.toNat - 48) + (e.toNat - 48) - 1) [] ++
                  expandReplGo before matched after groups fuel rest3
              else if 1 ≤ d.toNat - 48 ∧ d.toNat - 48 ≤ groups.length then
                groups.getD (d.toNat - 48 - 1) [] ++
                  expandReplGo before matched after groups fuel (e :: rest3)
              else '$' :: d :: expandReplGo before matched after groups fuel (e :: rest3)
            else if 1 ≤ d.toNat - 48 ∧ d.toNat - 48 ≤ groups.length then
              groups.getD (d.toNat - 48 - 1) [] ++
                expandReplGo before matched after groups fuel (e :: rest3)
            else '$' :: d :: expandReplGo before matched after groups fuel (e :: rest3)
          | [] =>
            if 1 ≤ d.toNat - 48 ∧ d.toNat - 48 ≤ groups.length then
              groups.getD (d.toNat - 48 - 1) []
            else ['$', d]
        else '$' :: d :: expandReplGo before matched after groups fuel rest2
    else c :: expandReplGo before matched after groups fuel rest

def expandRepl (before matched after : List Char) (groups : List (List Char))
    (t : List Char) : List Char :=
  expandReplGo before matched after groups t.length t

/- One step of JS global replace: scan left to right, at each position ask the
matcher for a match (length and captured groups); on a match emit the expanded
replacement and resume after the matched text, otherwise copy one character.
The fuel argument is an upper bound on the number of scan steps; it is
initialised to the string length, which suffices because every step consumes
at least one character. -/
def jsReplaceGo (m : List Char → Option (Nat × List (List Char))) (replT : List Char) :
    Nat → List Char → List Char → List Char
  | _, _, [] => []
  | 0, _, s => s
  | fuel + 1, before, c :: rest =>
    match m (c :: rest) with
    | some lg =>
      expandRepl before ((c :: rest).take lg.1) ((c :: rest).drop lg.1) lg.2 replT ++
        jsReplaceGo m replT fuel (before ++ (c :: rest).take lg.1) ((c :: rest).drop lg.1)
    | none => c :: jsReplaceGo m replT fuel (before ++ [c]) rest

def jsReplace (m : List Char → Option (Nat × List (List Char))) (replT s : List Char) :
    List Char :=
  jsReplaceGo m replT s.length [] s

/- Matcher for a literal pattern (a regex whose specials are all escaped). -/
def matchLit (pat : List Char) (s : List Char) : Option (Nat × List (List Char)) :=
  if pat.isPrefixOf s then some (pat.length, []) else none

/- Matcher for a single-character class such as `[{}]` or `[$&%#^_~]`. -/
def matchCharSet (cls : List Char) (s : List Char) : Option (Nat × List (List Char)) :=
  match s with
  | [] => none
  | c :: _ => if cls.contains c then some (1, []) else none

/- Matcher for `(pre)[^}]*?(\})`: the literal prefix, then the shortest run of
non-`}` characters, then `}`.  Group 1 captures the prefix, group 2 the brace. -/
def matchBody (pre : List Char) (s : List Char) : Option (Nat × List (List Char)) :=
  if pre.isPrefixOf s then
    let rest := s.drop pre.length
    let body := rest.takeWhile (fun c => c != rb)
    if body.length < rest.length then some (pre.length + body.length + 1, [pre, [rb]])
    else none
  else none

/- escapeLatex from the source, steps in source order:
   1. `/\\/g`      → `\textbackslash{}`
   2. `/[{}]/g`    → `\$&`
   3. `/[$&%#^_~]/g` → `\$&`
   4. `/\textbackslash\{\}/g` → `\textbackslash{}`; note that in the source
      regex the unescaped `\t` denotes a TAB character, so this last pattern is
      TAB followed by `extbackslash{}`, which is modelled verbatim. -/
def escTbs : List Char := '\\' :: ("textbackslash").data ++ [lb, rb]

def escStep1 (s : List Char) : List Char := jsReplace (matchCharSet ['\\']) escTbs s

def escStep2 (s : List Char) : List Char :=
  jsReplace (matchCharSet [lb, rb]) ['\\', '$', '&'] s

def escStep3 (s : List Char) : List Char :=
  jsReplace (matchCharSet (("$&%#^_~").data)) ['\\', '$', '&'] s

def escStep4 (s : List Char) : List Char :=
  jsReplace (matchLit ('\t' :: ("extbackslash").data ++ [lb, rb])) escTbs s

def escapeLatex (s : List Char) : List Char := escStep4 (escStep3 (escStep2 (escStep1 s)))

/- The five placeholder patterns of the /generate-pdf handler, for field id
`k`.  The id is regex-escaped in the source (`escKey`), so each embedded
occurrence of the id matches literally. -/
def newcmdPre (k : List Char) : List Char :=
  '\\' :: ("newcommand").data ++ [lb, '\\'] ++ k ++ [rb, lb]

def defPre (k : List Char) : List Char := '\\' :: ("def").data ++ ['\\'] ++ k ++ [lb]

def bracePat (k : List Char) : List Char := lb :: k ++ [rb]

def varPat (k : List Char) : List Char := '\\' :: ("VAR").data ++ [lb] ++ k ++ [rb]

def anglePat (k : List Char) : List Char := '<' :: '<' :: k ++ ['>', '>']

/- The replacement template of patterns 1 and 2 in the source is the JS
template literal `$1${safeVal}$2`. -/
def injRT (v : List Char) : List Char := '$' :: '1' :: escapeLatex v ++ ['$', '2']

/- Substitution of one (id, value) pair: the five `processed.replace` calls of
the /generate-pdf handler in source order.  `safeVal` is `escapeLatex(String(val
|| ''))`, which for a string value equals `escapeLatex` of the value. -/
def injectOne (doc k v : List Char) : List Char :=
  jsReplace (matchLit (anglePat k)) (escapeLatex v)
    (jsReplace (matchLit (varPat k)) (escapeLatex v)
      (jsReplace (matchLit (bracePat k)) (escapeLatex v)
        (jsReplace (matchBody (defPre k)) (injRT v)
          (jsReplace (matchBody (newcmdPre k)) (injRT v) doc))))

/- The whole injection loop: `for (const [key, val] of Object.entries(values))`
in insertion order. -/
def injectAll (doc : List Char) (vm : List (List Char × List Char)) : List Char :=
  vm.foldl (fun d kv => injectOne d kv.1 kv.2) doc

/- Does the matcher match anywhere in `s`? -/
def matchesNowhere (m : List Char → Option (Nat × List (List Char))) (s : List Char) : Bool :=
  (tailsOf s).all (fun t => (m t).isNone)

/- None of the five placeholder patterns of id `k` matches anywhere in `s`. -/
def keyPatternsClear (k s : List Char) : Bool :=
  matchesNowhere (matchBody (newcmdPre k)) s &&
  matchesNowhere (matchBody (defPre k)) s &&
  matchesNowhere (matchLit (bracePat k)) s &&
  matchesNowhere (matchLit (varPat k)) s &&
  matchesNowhere (matchLit (anglePat k)) s

/- JS `String.prototype.includes`, i.e. substring test. -/
def containsSub (pat s : List Char) : Bool := (tailsOf s).any (fun t => pat.isPrefixOf t)

def dcMark : List Char := ("\\documentclass").data

def bdMark : List Char := ("\\begin\x7bdocument\x7d").data

inductive GenError where
  | missingStructure (marker : List Char)

/- The template-processing part of the /generate-pdf handler: run the
injection loop, then require the document-class declaration and the
document-body start marker, in source order, failing with the error that names
the absent marker. -/
def generatePdfProcess (t : List Char) (vm : List (List Char × List Char)) :
    Except GenError (List Char) :=
  let processed := injectAll t vm
  if containsSub dcMark processed then
    if containsSub bdMark processed then Except.ok processed
    else Except.error (GenError.missingStructure bdMark)
  else Except.error (GenError.missingStructure dcMark)

/- JSON values as parsed by the /upload-tex handler (`JSON.parse` output).
Objects are property lists; a property lookup models JS member access, with
`none` standing for `undefined`. -/
inductive JVal where
  | jnull
  | jbool (b : Bool)
  | jnum (n : Int)
  | jstr (s : List Char)
  | jarr (elems : List JVal)
  | jobj (props : List (List Char × JVal))

def idKey : List Char := ("id").data

def labelKey : List Char := ("label").data

def dfltKey : List Char := ("default").data

def lookupProp (props : List (List Char × JVal)) (k : List Char) : Option JVal :=
  Option.map (fun p => p.2) (props.find? (fun p => p.1 == k))

/- `typeof x === 'string'` refinement of a member access. -/
def getStr (v : Option JVal) : Option (List Char) :=
  match v with
  | some (JVal.jstr s) => some s
  | _ => none

/- The filter of `validatedSchema`: `item && typeof item === 'object' &&
typeof item.id === 'string' && typeof item.label === 'string' && item.id.length
> 0 && item.label.length > 0`.  Arrays are objects in JS but have no `id`
member, so they fail the string checks; `null` fails the truthiness check. -/
def keepItem (item : JVal) : Bool :=
  match item with
  | JVal.jobj props =>
    match getStr (lookupProp props idKey), getStr (lookupProp props labelKey) with
    | some i, some l => (!i.isEmpty) && (!l.isEmpty)
    | _, _ => false
  | _ => false

/- The same condition stated independently of the embedding, used to check
`keepItem` against the claim wording. -/
def SpecKeep (item : JVal) : Prop :=
  ∃ props i l, item = JVal.jobj props ∧
    getStr (lookupProp props idKey) = some i ∧ i ≠ [] ∧
    getStr (lookupProp props labelKey) = some l ∧ l ≠ []

def isIdChar (c : Char) : Bool :=
  (decide ('a' ≤ c) && decide (c ≤ 'z')) || (decide ('0' ≤ c) && decide (c ≤ '9')) || c == '_'

/- `item.id.toLowerCase().replace(/[^a-z0-9_]/g, '')` (ASCII lowercasing). -/
def normalizeId (s : List Char) : List Char := (s.map Char.toLower).filter isIdChar

def isJsWS (c : Char) : Bool :=
  c == ' ' || c == '\t' || c == '\n' || c == '\r' || c == '\x0b' || c == '\x0c'

/- JS `String.prototype.trim` (ASCII whitespace). -/
def trimL (s : List Char) : List Char := ((s.dropWhile isJsWS).reverse.dropWhile isJsWS).reverse

/- JS truthiness of a value (`undefined` is handled at the call site). -/
def jsFalsy (v : JVal) : Bool :=
  match v with
  | JVal.jnull => true
  | JVal.jbool b => !b
  | JVal.jnum n => n == 0
  | JVal.jstr s => s.isEmpty
  | JVal.jarr _ => false
  | JVal.jobj _ => false

/- JS `String(v)` conversion (arrays join their elements with commas). -/
mutual
def jsToStringV : JVal → List Char
  | JVal.jnull => ("null").data
  | JVal.jbool b => if b then ("true").data else ("false").data
  | JVal.jnum n => (toString n).data
  | JVal.jstr s => s
  | JVal.jarr xs => jsToStringL xs
  | JVal.jobj _ => ("[object Object]").data
def jsToStringL : List JVal → List Char
  | [] => []
  | [x] => jsToStringV x
  | x :: y :: rest => jsToStringV x ++ ',' :: jsToStringL (y :: rest)
end

/- `String(item.default || '')`. -/
def coerceDefault (v : Option JVal) : List Char :=
  match v with
  | none => []
  | some x => if jsFalsy x then [] else jsToStringV x

structure FieldDesc where
  id : List Char
  label : List Char
  dflt : List Char
deriving DecidableEq

/- The map of `validatedSchema`: normalize the id, trim the label, coerce and
trim the default. -/
def cleanItem (item : JVal) : FieldDesc :=
  match item with
  | JVal.jobj props =>
    ⟨normalizeId (Option.getD (getStr (lookupProp props idKey)) []),
     trimL (Option.getD (getStr (lookupProp props labelKey)) []),
     trimL (coerceDefault (lookupProp props dfltKey))⟩
  | _ => ⟨[], [], []⟩

inductive ExtractError where
  | NoFieldsFound
deriving DecidableEq

/- Validation stage of the /upload-tex handler, starting from a parsed JSON
array: filter, clean, and fail with NoFieldsFound when nothing survives. -/
def validateSchema (schema : List JVal) : Except ExtractError (List FieldDesc) :=
  let v := (schema.filter keepItem).map cleanItem
  if v.isEmpty then Except.error ExtractError.NoFieldsFound else Except.ok v

/- Compiler chain (tryCompileLatex).  The environment assigns to each candidate
the outcome of its external invocation: whether `exec` reported an error,
whether the run wrote the output artifact `resume.pdf`, and the combined
stdout/stderr-plus-logfile text.  The filesystem state relevant to the chain is
the single flag "does resume.pdf exist", threaded through the recursion; a
failed attempt unlinks the artifact before the next candidate runs. -/
structure ExecResult where
  execErr : Option (List Char)
  madePdf : Bool
  outLog : List Char

structure CompilerSpec where
  name : List Char
  command : List Char

structure Attempt where
  compiler : List Char
  command : List Char
  success : Bool
  errMsg : Option (List Char)
  log : List Char

/- The attempt record pushed by the source: success is `!err &&
fs.existsSync(pdfPath)`, and the log is the last 3000 characters. -/
def mkAttempt (env : CompilerSpec → ExecResult) (pdfBefore : Bool) (c : CompilerSpec) :
    Attempt :=
  ⟨c.name, c.command,
   (env c).execErr.isNone && (pdfBefore || (env c).madePdf),
   (env c).execErr,
   lastN 3000 (env c).outLog⟩

/- Whether a candidate, run in a workspace with no artifact present, succeeds. -/
def succC (env : CompilerSpec → ExecResult) (c : CompilerSpec) : Bool :=
  (env c).execErr.isNone && (env c).madePdf

def attemptOf (env : CompilerSpec → ExecResult) (c : CompilerSpec) : Attempt :=
  mkAttempt env false c

def allFailedMsg : List Char := ("All LaTeX compilers failed").data

/- `tryNextCompiler`: one attempt per candidate in order; push the attempt; on
success return the attempts with no error; on failure unlink any partial
artifact (the flag becomes false) and recurse; on exhaustion return the error
and the full attempt list. -/
def tryNextCompiler (env : CompilerSpec → ExecResult) :
    List CompilerSpec → Bool → List Attempt → Option (List Char) × List Attempt
  | [], _, acc => (some allFailedMsg, acc)
  | c :: rest, pdfEx, acc =>
    let a := mkAttempt env pdfEx c
    if a.success then (none, acc ++ [a])
    else tryNextCompiler env rest false (acc ++ [a])

/- The chain starts in a fresh workspace (no artifact) with no attempts. -/
def tryCompileLatex (env : CompilerSpec → ExecResult) (cands : List CompilerSpec) :
    Option (List Char) × List Attempt :=
  tryNextCompiler env cands false []

/- The fixed candidate list of the source (local tectonic binary, system
tectonic, pdflatex). -/
def compilers : List CompilerSpec :=
  [⟨("tectonic-local").data, ("TECTONICPATH --outdir OUTDIR TEXPATH").data⟩,
   ⟨("tectonic-system").data, ("tectonic --outdir OUTDIR TEXPATH").data⟩,
   ⟨("pdflatex").data, ("pdflatex -output-directory=OUTDIR -interaction=nonstopmode TEXPATH").data⟩]

/- Workspace cleanup (safeRemoveDir).  The environment gives the outcome of
each `fs.rmSync` attempt in sequence; the inner loop retries while the retry
counter stays below `maxRetries` and the failure code is ENOTEMPTY, then gives
up with a logged warning.  Timings of the scheduled retries are abstracted. -/
inductive RmOutcome where
  | success
  | failure (code : List Char)

structure CleanupReport where
  attempts : Nat
  removed : Bool
  gaveUp : Bool

def enotemptyCode : List Char := ("ENOTEMPTY").data

def maxRetries : Nat := 3

/- The retry loop: the first argument is the number of retries still allowed
(`maxRetries - 1` initially, matching `++retries < maxRetries` with `retries`
starting at 0), the second the index of the current attempt. -/
def attemptLoop (env : Nat → RmOutcome) : Nat → Nat → CleanupReport
  | 0, k =>
    match env k with
    | RmOutcome.success => ⟨k + 1, true, false⟩
    | RmOutcome.failure _ => ⟨k + 1, false, true⟩
  | b + 1, k =>
    match env k with
    | RmOutcome.success => ⟨k + 1, true, false⟩
    | RmOutcome.failure code =>
      if code = enotemptyCode then attemptLoop env b (k + 1) else ⟨k + 1, false, true⟩

/- safeRemoveDir: if the directory exists, run the retry loop; every path
returns a report (the source catches all errors), never an exception. -/
def safeRemoveDirRun (env : Nat → RmOutcome) (dirExists : Bool) : Option CleanupReport :=
  if dirExists then some (attemptLoop env (maxRetries - 1) 0) else none

/- The request epilogue: the response value is produced first, then cleanup
runs; the cleanup report never feeds back into the response. -/
def finishRequest (response : List Char) (env : Nat → RmOutcome) :
    List Char × Option CleanupReport :=
  (response, safeRemoveDirRun env true)

/- Concrete documents and maps used by the counterexamples and witnesses. -/
def cexKey : List Char := ("name").data

def cexVal : List Char := ("X").data

def c2Doc : List Char :=
  ("\\newcommand\x7b\\name\x7d\x7bOld\x7d \\def\\name\x7bOld\x7d \x7bname\x7d \\VAR\x7bname\x7d <<name>>").data

def c2Out : List Char :=
  ("\\newcommand\x7b\\name\x7d\x7bX\x7d \\def\\name\x7bX\x7d X \\VARX X").data

def c2VarDoc : List Char := ("\\VAR\x7bname\x7d").data

def c4Doc : List Char := ("\\newcommand\x7b\\name\x7d\x7bA\x7d").data

def c4Vm : List (List Char × List Char) := [(("name").data, ("\x7d").data)]

def c4wDoc : List Char := ("<<name>>").data

def c4wVm : List (List Char × List Char) := [(("name").data, ("X").data)]

def c5Doc : List Char := ("<<name>>").data

def c5Vm : List (List Char × List Char) := [(("other").data, ("X").data)]

def c5wDoc : List Char := ("hello world").data

def c5wVm : List (List Char × List Char) := [(("name").data, ("X").data)]

def wit7t : List Char := ("hello").data

def c8Schema : List JVal :=
  [JVal.jobj [(idKey, JVal.jstr (("!").data)), (labelKey, JVal.jstr (("A").data))],
   JVal.jobj [(idKey, JVal.jstr (("x").data)), (labelKey, JVal.jstr (("B").data))],
   JVal.jobj [(idKey, JVal.jstr (("X!").data)), (labelKey, JVal.jstr (("C").data))],
   JVal.jobj [(idKey, JVal.jstr (("y").data)), (labelKey, JVal.jstr ((" ").data))]]

def c8Out : List FieldDesc :=
  [⟨[], ("A").data, []⟩, ⟨("x").data, ("B").data, []⟩,
   ⟨("x").data, ("C").data, []⟩, ⟨("y").data, [], []⟩]

def c8wSchema : List JVal :=
  [JVal.jobj [(idKey, JVal.jstr (("ab").data)), (labelKey, JVal.jstr (("Cd").data))]]

def c8wOut : List FieldDesc := [⟨("ab").data, ("Cd").data, []⟩]

def c9Env : Nat → RmOutcome := fun _ => RmOutcome.failure enotemptyCode

def c9Resp : List Char := ("ok").data

/- Helper lemmas. -/
theorem mem_tailsOf_tail {t : List Char} (c : Char) {rest : List Char}
    (h : t ∈ tailsOf rest) : t ∈ tailsOf (c :: rest) := by
  simp only [tailsOf, List.mem_cons]
  exact Or.inr h

theorem self_mem_tailsOf (s : List Char) : s ∈ tailsOf s := by
  cases s <;> simp [tailsOf]

theorem jsReplaceGo_nomatch (m : List Char → Option (Nat × List (List Char)))
    (r : List Char) :
    ∀ (s : List Char), (∀ t ∈ tailsOf s, m t = none) →
      ∀ (fuel : Nat) (before : List Char), jsReplaceGo m r fuel before s = s := by
  intro s
  induction s with
  | nil => intro _ fuel before; cases fuel <;> rfl
  | cons c rest ih =>
    intro h fuel before
    cases fuel with
    | zero => rfl
    | succ f =>
      have hm : m (c :: rest) = none := h (c :: rest) (self_mem_tailsOf (c :: rest))
      simp only [jsReplaceGo, hm]
      exact congrArg (fun l => c :: l)
        (ih (fun t ht => h t (mem_tailsOf_tail c ht)) f (before ++ [c]))

theorem jsReplace_nomatch (m : List Char → Option (Nat × List (List Char)))
    (r s : List Char) (h : matchesNowhere m s = true) : jsReplace m r s = s := by
  have hall : ∀ t ∈ tailsOf s, m t = none := by
    intro t ht
    have := (List.all_eq_true.mp h) t ht
    simpa [Option.isNone_iff_eq_none] using this
  exact jsReplaceGo_nomatch m r s hall s.length []

theorem injectOne_clear (s k v : List Char) (h : keyPatternsClear k s = true) :
    injectOne s k v = s := by
  unfold keyPatternsClear at h
  simp only [Bool.and_eq_true] at h
  obtain ⟨⟨⟨⟨h1, h2⟩, h3⟩, h4⟩, h5⟩ := h
  unfold injectOne
  rw [jsReplace_nomatch _ _ _ h1, jsReplace_nomatch _ _ _ h2, jsReplace_nomatch _ _ _ h3,
    jsReplace_nomatch _ _ _ h4, jsReplace_nomatch _ _ _ h5]

theorem injectAll_clear (vm : List (List Char × List Char)) :
    ∀ (s : List Char), (∀ kv ∈ vm, keyPatternsClear kv.1 s = true) → injectAll s vm = s := by
  induction vm with
  | nil => intro s _; rfl
  | cons kv rest ih =>
    intro s h
    unfold injectAll
    simp only [List.foldl_cons]
    rw [injectOne_clear s kv.1 kv.2 (h kv (by simp))]
    exact ih s (fun kv2 hkv2 => h kv2 (by simp [hkv2]))

theorem cleanItem_id_charset (x : JVal) : ((cleanItem x).id.all isIdChar) = true := by
  have hn : ∀ (s : List Char), ((normalizeId s).all isIdChar) = true := by
    intro s
    have e : normalizeId s = (s.map Char.toLower).filter isIdChar := rfl
    rw [e, List.all_eq_true]
    intro a ha
    exact (List.mem_filter.mp ha).2
  cases x <;> first | exact hn _ | rfl

theorem mkAttempt_success_false (env : CompilerSpec → ExecResult) (c : CompilerSpec) :
    (mkAttempt env false c).success = succC env c := by
  simp [mkAttempt, succC]

theorem tryNext_go (env : CompilerSpec → ExecResult) :
    ∀ (cands : List CompilerSpec) (acc : List Attempt),
      tryNextCompiler env cands false acc =
        match cands.dropWhile (fun c => !(succC env c)) with
        | [] => (some allFailedMsg, acc ++ cands.map (attemptOf env))
        | c :: _ =>
          (none, acc ++ (cands.takeWhile (fun c => !(succC env c))).map (attemptOf env) ++
            [attemptOf env c]) := by
  intro cands
  induction cands with
  | nil => intro acc; simp [tryNextCompiler, List.dropWhile]
  | cons c rest ih =>
    intro acc
    by_cases hs : succC env c = true
    · have hsucc : (mkAttempt env false c).success = true := by
        rw [mkAttempt_success_false, hs]
      simp [tryNextCompiler, hsucc, List.dropWhile_cons, List.takeWhile_cons, hs, attemptOf]
    · have hs' : succC env c = false := by
        cases hval : succC env c
        · rfl
        · exact absurd hval hs
      have hfail : (mkAttempt env false c).success = false := by
        rw [mkAttempt_success_false, hs']
      simp only [tryNextCompiler, hfail, Bool.false_eq_true, if_false]
      rw [ih (acc ++ [mkAttempt env false c])]
      rcases hdrop : rest.dropWhile (fun x => !(succC env x)) with _ | ⟨c2, rest2⟩ <;>
        simp [List.dropWhile_cons, hs', hdrop, List.takeWhile_cons, attemptOf,
          List.append_assoc]

theorem attemptLoop_spec (env : Nat → RmOutcome) :
    ∀ (b k : Nat),
      k + 1 ≤ (attemptLoop env b k).attempts ∧
      (attemptLoop env b k).attempts ≤ k + b + 1 ∧
      (∀ i, k ≤ i → i + 1 < (attemptLoop env b k).attempts →
        env i = RmOutcome.failure enotemptyCode) ∧
      ((attemptLoop env b k).removed = false → (attemptLoop env b k).gaveUp = true) := by
  intro b
  induction b with
  | zero =>
    intro k
    rcases h0 : env k with _ | c <;> simp [attemptLoop, h0] <;>
      exact fun i h1 h2 => by omega
  | succ b ih =>
    intro k
    rcases h0 : env k with _ | c
    · simp [attemptLoop, h0]
      exact fun i h1 h2 => by omega
    · by_cases hc : c = enotemptyCode
      · subst hc
        have estep : attemptLoop env (b + 1) k = attemptLoop env b (k + 1) := by
          simp [attemptLoop, h0]
        rw [estep]
        obtain ⟨ih1, ih2, ih3, ih4⟩ := ih (k + 1)
        refine ⟨by omega, by omega, ?_, ih4⟩
        intro i hki hi
        by_cases hik : k + 1 ≤ i
        · exact ih3 i hik hi
        · have : i = k := by omega
          subst this
          exact h0
      · simp [attemptLoop, h0, hc]
        exact fun i h1 h2 => by omega

/-- C1: the claim says escapeLatex escapes the backslash first, then braces,
then the reserved symbols, with no later step re-escaping characters introduced
by an earlier step, so every special character comes out fully and correctly
escaped.  Evaluating the source's escapeLatex at the failing input, a value
consisting of one backslash: step 1 produces the fourteen-character command
with an empty brace group, step 2 then re-escapes those two braces, and the
final fix-up replace never matches (its regex begins with a TAB character via
the unescaped sequence and the braces are already escaped), so the output is
the command followed by escaped braces rather than the correct empty brace
group. -/
theorem escapeLatex_backslash_eval :
    escapeLatex (("\\").data) = ("\\textbackslash\\\x7b\\\x7d").data ∧
    ("\\textbackslash\\\x7b\\\x7d").data ≠ ("\\textbackslash\x7b\x7d").data :=
  ⟨by decide, by decide⟩

/-- C2 counterexample: the five conventions are not independent.  On the
document consisting of a single sentinel placeholder for id name, the
bare-brace pattern (applied third) consumes the braced argument, leaving the
sentinel command head glued to the substituted value instead of the value
alone, so the sentinel convention for the same id is corrupted. -/
theorem inject_var_interference_cex :
    injectAll c2VarDoc [(cexKey, cexVal)] = ("\\VARX").data ∧
    ("\\VARX").data ≠ ("X").data :=
  ⟨by decide, by decide⟩

/-- C2 (amended): substitution applies the five conventions per field in the
fixed source order (named-command body, def body, bare brace, sentinel,
double-angle), each as one global replace; on a document carrying all five
conventions for one id, conventions 1, 2, 3 and 5 substitute cleanly while the
sentinel occurrence is left as the command head followed by the value, because
the bare-brace pattern runs first and matches inside it. -/
theorem inject_five_conventions_order :
    (∀ (doc k v : List Char), injectAll doc [(k, v)] =
      jsReplace (matchLit (anglePat k)) (escapeLatex v)
        (jsReplace (matchLit (varPat k)) (escapeLatex v)
          (jsReplace (matchLit (bracePat k)) (escapeLatex v)
            (jsReplace (matchBody (defPre k)) (injRT v)
              (jsReplace (matchBody (newcmdPre k)) (injRT v) doc))))) ∧
    injectAll c2Doc [(cexKey, cexVal)] = c2Out :=
  ⟨fun _ _ _ => rfl, by decide⟩

/-- C3: for every ordered candidate list and every environment of external
outcomes, the chain makes at most one attempt per candidate in list order
(the attempt list is the map of the attempt record over a prefix of the
candidates), an attempt succeeds exactly when the process reported no error
AND the artifact exists (and since a failed attempt unlinks the artifact
before the next candidate runs, each attempt sees only its own artifact),
iteration stops at the first success with no error value, and on exhaustion
the error is returned together with the full ordered attempt list. -/
theorem tryCompileLatex_chain_spec (env : CompilerSpec → ExecResult)
    (cands : List CompilerSpec) :
    tryCompileLatex env cands =
      match cands.dropWhile (fun c => !(succC env c)) with
      | [] => (some allFailedMsg, cands.map (attemptOf env))
      | c :: _ =>
        (none, (cands.takeWhile (fun c => !(succC env c))).map (attemptOf env) ++
          [attemptOf env c]) := by
  have h := tryNext_go env cands []
  rcases hdrop : cands.dropWhile (fun c => !(succC env c)) with _ | ⟨c, r⟩ <;>
    rw [hdrop] at h <;> simpa [tryCompileLatex, hdrop] using h

/-- C4 counterexample: substitution is not idempotent.  With the value being a
single closing brace, one pass rewrites the named-command body to the escaped
brace, whose closing half re-creates a match of the named-command pattern, so
a second pass inserts the value again and the results differ. -/
theorem inject_not_idempotent_cex :
    injectAll c4Doc c4Vm = ("\\newcommand\x7b\\name\x7d\x7b\\\x7d\x7d").data ∧
    injectAll (injectAll c4Doc c4Vm) c4Vm =
      ("\\newcommand\x7b\\name\x7d\x7b\\\x7d\x7d\x7d").data ∧
    injectAll (injectAll c4Doc c4Vm) c4Vm ≠ injectAll c4Doc c4Vm :=
  ⟨by decide, by decide, by decide⟩

/-- C4 (amended): applying the substitution pass twice with the same map
yields the same document as applying it once, provided no placeholder pattern
of any id in the map still matches the once-processed document; that premise
is what the spec's justification assumes, and it can fail, for example when a
substituted value contains a closing brace. -/
theorem inject_idempotent_when_clear (t : List Char) (vm : List (List Char × List Char))
    (h : ∀ kv ∈ vm, keyPatternsClear kv.1 (injectAll t vm) = true) :
    injectAll (injectAll t vm) vm = injectAll t vm :=
  injectAll_clear vm (injectAll t vm) h

theorem inject_idempotent_when_clear_witness :
    (∀ kv ∈ c4wVm, keyPatternsClear kv.1 (injectAll c4wDoc c4wVm) = true) ∧
    injectAll (injectAll c4wDoc c4wVm) c4wVm = injectAll c4wDoc c4wVm :=
  ⟨by decide, inject_idempotent_when_clear c4wDoc c4wVm (by decide)⟩

/-- C5 counterexample: an id absent from the ValueMap is not substituted with
the empty string.  With a map not containing the id name, the document
consisting of the double-angle placeholder for name is returned unchanged,
whereas empty-string substitution of that placeholder would give the empty
document. -/
theorem inject_absent_id_untouched_cex :
    injectAll c5Doc c5Vm = c5Doc ∧
    jsReplace (matchLit (anglePat cexKey)) [] c5Doc = [] ∧
    c5Doc ≠ [] :=
  ⟨by decide, by decide, by decide⟩

/-- C5 (amended): ids in the map that match no placeholder occurrence in the
template are ignored without error, the document coming back unchanged; ids
absent from the map are simply not processed, so their placeholders remain
verbatim rather than becoming the empty string. -/
theorem inject_unmatched_ids_noop (t : List Char) (vm : List (List Char × List Char))
    (h : ∀ kv ∈ vm, keyPatternsClear kv.1 t = true) : injectAll t vm = t :=
  injectAll_clear vm t h

theorem inject_unmatched_ids_noop_witness :
    (∀ kv ∈ c5wVm, keyPatternsClear kv.1 c5wDoc = true) ∧
    injectAll c5wDoc c5wVm = c5wDoc :=
  ⟨by decide, inject_unmatched_ids_noop c5wDoc c5wVm (by decide)⟩

/-- C6: starting from a parsed array, validation keeps exactly the elements
that are objects with non-empty string id and non-empty string label (the
boolean filter agrees with that specification stated independently), maps each
survivor to the normalized id, trimmed label and coerced trimmed default, and
fails with NoFieldsFound exactly when no element survives; the id Full Name!
normalizes to fullname. -/
theorem validateSchema_filter_map_spec (schema : List JVal) (item : JVal) :
    validateSchema schema =
      (if (schema.filter keepItem).isEmpty then Except.error ExtractError.NoFieldsFound
       else Except.ok ((schema.filter keepItem).map cleanItem)) ∧
    (keepItem item = true ↔ SpecKeep item) ∧
    normalizeId (("Full Name!").data) = ("fullname").data := by
  refine ⟨?_, ?_, by decide⟩
  · rcases h : schema.filter keepItem with _ | ⟨a, l⟩ <;> simp [validateSchema, h]
  · constructor
    · intro h
      cases item with
      | jobj props =>
        rcases hi : getStr (lookupProp props idKey) with _ | i
        · simp [keepItem, hi] at h
        · rcases hl : getStr (lookupProp props labelKey) with _ | l
          · simp [keepItem, hi, hl] at h
          · have h' := h
            simp only [keepItem, hi, hl, Bool.and_eq_true] at h'
            obtain ⟨h1, h2⟩ := h'
            refine ⟨props, i, l, rfl, hi, ?_, hl, ?_⟩
            · intro e; subst e; simp at h1
            · intro e; subst e; simp at h2
      | jnull => simp [keepItem] at h
      | jbool b => simp [keepItem] at h
      | jnum n => simp [keepItem] at h
      | jstr s => simp [keepItem] at h
      | jarr xs => simp [keepItem] at h
    · rintro ⟨props, i, l, rfl, hi, hine, hl, hlne⟩
      simp only [keepItem, hi, hl]
      cases i with
      | nil => exact absurd rfl hine
      | cons i0 irest =>
        cases l with
        | nil => exact absurd rfl hlne
        | cons l0 lrest => rfl

/-- C7: whenever the processed document lacks the document-class declaration
or the document-body start marker, the /generate-pdf pipeline fails with a
missing-structure error naming a marker that is indeed absent from the
processed document, regardless of the template and the value map (the
substitution loop itself never fails). -/
theorem generatePdf_missing_structure (t : List Char) (vm : List (List Char × List Char))
    (h : containsSub dcMark (injectAll t vm) = false ∨
      containsSub bdMark (injectAll t vm) = false) :
    ∃ m, generatePdfProcess t vm = Except.error (GenError.missingStructure m) ∧
      containsSub m (injectAll t vm) = false := by
  cases hdc : containsSub dcMark (injectAll t vm) with
  | false => exact ⟨dcMark, by simp [generatePdfProcess, hdc], hdc⟩
  | true =>
    have hbd : containsSub bdMark (injectAll t vm) = false := by
      rcases h with h | h
      · rw [h] at hdc; cases hdc
      · exact h
    exact ⟨bdMark, by simp [generatePdfProcess, hdc, hbd], hbd⟩

theorem generatePdf_missing_structure_witness :
    (containsSub dcMark (injectAll wit7t []) = false ∨
      containsSub bdMark (injectAll wit7t []) = false) ∧
    ∃ m, generatePdfProcess wit7t [] = Except.error (GenError.missingStructure m) ∧
      containsSub m (injectAll wit7t []) = false :=
  ⟨Or.inl (by decide), generatePdf_missing_structure wit7t [] (Or.inl (by decide))⟩

/-- C8 counterexample: the returned schema does not satisfy the claimed
FieldDescriptor invariant.  On a model response whose items carry the ids
exclamation mark, x, capital X exclamation mark and y (labels A, B, C and one
space), validation returns a schema whose first id normalizes to the empty
string, whose second and third ids collide, and whose last label trims to the
empty string: id non-emptiness, id uniqueness and label non-emptiness all
fail. -/
theorem validateSchema_invariant_cex :
    validateSchema c8Schema = Except.ok c8Out ∧
    c8Out.map FieldDesc.id = [[], ("x").data, ("x").data, ("y").data] ∧
    ¬ (c8Out.map FieldDesc.id).Nodup ∧
    c8Out.map FieldDesc.label = [("A").data, ("B").data, ("C").data, []] := by
  refine ⟨rfl, rfl, by decide, rfl⟩

/-- C8 (amended): every id in a schema returned by validation is drawn from
the canonical charset, lowercase letters, digits and underscore (all other
characters are stripped by normalization); ids may however be empty or
duplicated, and labels may be empty after trimming. -/
theorem validateSchema_id_charset (schema : List JVal) (out : List FieldDesc)
    (h : validateSchema schema = Except.ok out) :
    ∀ f ∈ out, f.id.all isIdChar = true := by
  have hout : out = (schema.filter keepItem).map cleanItem := by
    simp only [validateSchema] at h
    rcases hfil : schema.filter keepItem with _ | ⟨a, l⟩
    · rw [hfil] at h; simp at h
    · rw [hfil] at h
      simp at h
      simpa using h.symm
  intro f hf
  rw [hout] at hf
  rcases List.mem_map.mp hf with ⟨x, _, rfl⟩
  exact cleanItem_id_charset x

theorem validateSchema_id_charset_witness :
    (FieldDesc.mk (("ab").data) (("Cd").data) []).id.all isIdChar = true :=
  validateSchema_id_charset c8wSchema c8wOut rfl
    (FieldDesc.mk (("ab").data) (("Cd").data) []) (by decide)

/-- C9: for every environment of removal outcomes, cleanup runs the removal at
least once and at most maxRetries times, every non-final attempt failed with
the transient ENOTEMPTY condition (the only condition that triggers a retry),
a cleanup that did not remove the directory ends in a logged give-up rather
than an exception (the run always returns a report), and the request's
response value is unchanged by cleanup. -/
theorem safeRemoveDir_bounded_retries (env : Nat → RmOutcome) (response : List Char) :
    (finishRequest response env).1 = response ∧
    ∃ rep, safeRemoveDirRun env true = some rep ∧
      1 ≤ rep.attempts ∧ rep.attempts ≤ maxRetries ∧
      (∀ i, i + 1 < rep.attempts → env i = RmOutcome.failure enotemptyCode) ∧
      (rep.removed = false → rep.gaveUp = true) := by
  obtain ⟨h1, h2, h3, h4⟩ := attemptLoop_spec env (maxRetries - 1) 0
  have h2' : (attemptLoop env (maxRetries - 1) 0).attempts ≤ maxRetries := by
    have e : 0 + (maxRetries - 1) + 1 = maxRetries := by
      simp [maxRetries]
    rw [e] at h2
    exact h2
  exact ⟨rfl, attemptLoop env (maxRetries - 1) 0, rfl, h1, h2',
    fun i hi => h3 i (Nat.zero_le i) hi, h4⟩

theorem safeRemoveDir_bounded_retries_witness :
    (finishRequest c9Resp c9Env).1 = c9Resp ∧
    ∃ rep, safeRemoveDirRun c9Env true = some rep ∧
      1 ≤ rep.attempts ∧ rep.attempts ≤ maxRetries ∧
      (∀ i, i + 1 < rep.attempts → c9Env i = RmOutcome.failure enotemptyCode) ∧
      (rep.removed = false → rep.gaveUp = true) :=
  safeRemoveDir_bounded_retries c9Env c9Resp

/-- C10: running the substitution pass with an empty value map is the identity
on the template, since the injection loop iterates over the map's entries. -/
theorem inject_empty_map_identity (t : List Char) : injectAll t [] = t := rfl
